import Mathlib

/-!
Verification of the multi-provider streaming LLM plugin (src/main.ts).

The byte-level SSE streams are modelled at the character level: a read chunk
is a `List Char` (the UTF-8 decoding is handled by a streaming TextDecoder in
the source, so chunk boundaries never split a character after decoding).
JavaScript strings are modelled as `List Char`.
-/

/-- Characters of a string literal, used to transcribe JS string constants. -/
def toL (s : String) : List Char := s.data

/-- Whitespace recognized by the JS `String.prototype.trim` (the ASCII
whitespace characters plus NBSP and BOM; the source only ever trims SSE
lines, which contain at most ASCII whitespace). -/
def isJsWs (c : Char) : Bool :=
  c = ' ' || c = '\t' || c = '\n' || c = '\r' || c = '\x0b' || c = '\x0c' ||
  c.val = 160 || c.val = 65279

/-- JS `s.trim()`: drop leading and trailing whitespace. -/
def trimL (s : List Char) : List Char :=
  ((s.dropWhile isJsWs).reverse.dropWhile isJsWs).reverse

/-- JS `s.startsWith(p)`: first argument is the string, second the pattern. -/
def startsWithL : List Char → List Char → Bool
  | _, [] => true
  | [], _ :: _ => false
  | c :: cs, p :: ps => c == p && startsWithL cs ps

/-- One character of JS `s.split('\n')`: finished lines so far plus the
current (unfinished) line. -/
def splitNlStep (st : List (List Char) × List Char) (c : Char) :
    List (List Char) × List Char :=
  if c = '\n' then (st.1 ++ [st.2], []) else (st.1, st.2 ++ [c])

/-- JS `s.split('\n')`, presented as (complete lines, trailing fragment):
`s.split('\n') = lines ++ [fragment]`. -/
def splitNl (s : List Char) : List (List Char) × List Char :=
  s.foldl splitNlStep ([], [])

theorem splitNl_nil : splitNl [] = ([], []) := rfl

theorem foldl_splitNlStep (b : List Char) :
    ∀ (la : List (List Char)) (ra : List Char),
      b.foldl splitNlStep (la, ra) =
        (la ++ (b.foldl splitNlStep ([], ra)).1, (b.foldl splitNlStep ([], ra)).2) := by
  induction b with
  | nil => intro la ra; simp
  | cons c b ih =>
    intro la ra
    by_cases hc : c = '\n'
    · subst hc
      simp only [List.foldl_cons, splitNlStep, eq_self_iff_true, if_true, List.nil_append]
      rw [ih (la ++ [ra]) [], ih [ra] []]
      simp [List.append_assoc]
    · simp only [List.foldl_cons, splitNlStep, if_neg hc]
      rw [ih la (ra ++ [c])]

theorem splitNl_append (a b : List Char) :
    splitNl (a ++ b) =
      ((splitNl a).1 ++ (b.foldl splitNlStep ([], (splitNl a).2)).1,
       (b.foldl splitNlStep ([], (splitNl a).2)).2) := by
  unfold splitNl
  rw [List.foldl_append]
  rw [show a.foldl splitNlStep ([], []) =
        ((a.foldl splitNlStep ([], [])).1, (a.foldl splitNlStep ([], [])).2) from rfl]
  exact foldl_splitNlStep b _ _

theorem foldl_splitNlStep_noNl (s : List Char) :
    ∀ (la : List (List Char)) (ra : List Char), (∀ c ∈ s, c ≠ '\n') →
      s.foldl splitNlStep (la, ra) = (la, ra ++ s) := by
  induction s with
  | nil => intro la ra _; simp
  | cons c s ih =>
    intro la ra h
    have hc : c ≠ '\n' := h c (List.mem_cons_self c s)
    simp only [List.foldl_cons, splitNlStep, if_neg hc]
    rw [ih la (ra ++ [c]) (fun x hx => h x (List.mem_cons_of_mem c hx))]
    simp

theorem splitNl_of_noNl (s : List Char) (h : '\n' ∉ s) : splitNl s = ([], s) := by
  unfold splitNl
  rw [foldl_splitNlStep_noNl s [] [] (fun c hc he => h (he ▸ hc))]
  simp

theorem foldl_splitNlStep_snd_noNl (s : List Char) :
    ∀ (la : List (List Char)) (ra : List Char), '\n' ∉ ra →
      '\n' ∉ (s.foldl splitNlStep (la, ra)).2 := by
  induction s with
  | nil => intro la ra h; simpa using h
  | cons c s ih =>
    intro la ra h
    by_cases hc : c = '\n'
    · subst hc
      simp only [List.foldl_cons, splitNlStep, if_pos rfl]
      exact ih _ [] (by simp)
    · simp only [List.foldl_cons, splitNlStep, if_neg hc]
      refine ih _ (ra ++ [c]) ?_
      intro hm
      rcases List.mem_append.mp hm with h1 | h1
      · exact h h1
      · exact hc (List.mem_singleton.mp h1).symm

theorem splitNl_snd_noNl (s : List Char) : '\n' ∉ (splitNl s).2 :=
  foldl_splitNlStep_snd_noNl s [] [] (by simp)

theorem splitNl_buffer_append (r b : List Char) (h : '\n' ∉ r) :
    b.foldl splitNlStep ([], r) = splitNl (r ++ b) := by
  unfold splitNl
  rw [List.foldl_append, foldl_splitNlStep_noNl r [] [] (fun c hc he => h (he ▸ hc))]
  simp

theorem splitNl_cons_nl (x y : List Char) (h : '\n' ∉ x) :
    splitNl (x ++ '\n' :: y) = (x :: (splitNl y).1, (splitNl y).2) := by
  unfold splitNl
  rw [List.foldl_append, foldl_splitNlStep_noNl x [] [] (fun c hc he => h (he ▸ hc))]
  simp only [List.foldl_cons, splitNlStep, eq_self_iff_true, if_true, List.nil_append]
  rw [foldl_splitNlStep y [x] []]
  simp

theorem splitNl_noNl_append_nl (r : List Char) (h : '\n' ∉ r) :
    splitNl (r ++ ['\n']) = ([r], []) := by
  have := splitNl_cons_nl r [] h
  simpa [splitNl] using this

/-!  JSON values and `JSON.parse`.

Numbers are stored as sign plus integer/fraction digit strings; the exponent
is validated but not stored, since the plugin only observes numbers through
JS truthiness (zero test) and sign, which the exponent cannot change.
-/

inductive Json where
  | null
  | bool (b : Bool)
  | num (neg : Bool) (ip fp : List Char)
  | str (s : List Char)
  | arr (elems : List Json)
  | obj (fields : List (List Char × Json))

/-- JSON insignificant whitespace. -/
def isJsonWs (c : Char) : Bool :=
  c = ' ' || c = '\t' || c = '\n' || c = '\r'

/-- Hexadecimal digit value, for string escapes. -/
def hexVal (c : Char) : Option Nat :=
  if '0' ≤ c ∧ c ≤ '9' then some (c.toNat - 48)
  else if 'a' ≤ c ∧ c ≤ 'f' then some (c.toNat - 87)
  else if 'A' ≤ c ∧ c ≤ 'F' then some (c.toNat - 55)
  else none

/-- Single-character JSON string escapes. -/
def escMap : Char → Option Char
  | '\"' => some '\"'
  | '\\' => some '\\'
  | '/' => some '/'
  | 'b' => some '\x08'
  | 'f' => some '\x0c'
  | 'n' => some '\n'
  | 'r' => some '\r'
  | 't' => some '\t'
  | _ => none

/-- Body of a JSON string literal (after the opening quote): returns the
decoded characters and the input after the closing quote. -/
def parseStrBody : List Char → Option (List Char × List Char)
  | [] => none
  | '\"' :: r => some ([], r)
  | '\\' :: 'u' :: h1 :: h2 :: h3 :: h4 :: r =>
    match hexVal h1, hexVal h2, hexVal h3, hexVal h4, parseStrBody r with
    | some a, some b, some c, some d, some (cs, rest) =>
      some (Char.ofNat (((a * 16 + b) * 16 + c) * 16 + d) :: cs, rest)
    | _, _, _, _, _ => none
  | '\\' :: e :: r =>
    match escMap e, parseStrBody r with
    | some c, some (cs, rest) => some (c :: cs, rest)
    | _, _ => none
  | c :: r =>
    if c.toNat < 32 then none
    else
      match parseStrBody r with
      | some (cs, rest) => some (c :: cs, rest)
      | none => none

/-- Exponent part of a JSON number (after the `e`/`E`). -/
def parseExpTail (neg : Bool) (ip fp : List Char) (r : List Char) :
    Option (Json × List Char) :=
  let r1 := match r with
    | '+' :: r2 => r2
    | '-' :: r2 => r2
    | _ => r
  match r1.takeWhile Char.isDigit with
  | [] => none
  | _ => some (Json.num neg ip fp, r1.dropWhile Char.isDigit)

/-- Optional exponent of a JSON number. -/
def parseNumExp (neg : Bool) (ip fp : List Char) (s : List Char) :
    Option (Json × List Char) :=
  match s with
  | 'e' :: r => parseExpTail neg ip fp r
  | 'E' :: r => parseExpTail neg ip fp r
  | _ => some (Json.num neg ip fp, s)

/-- Optional fraction of a JSON number. -/
def parseNumFrac (neg : Bool) (ip : List Char) (s : List Char) :
    Option (Json × List Char) :=
  match s with
  | '.' :: r =>
    match r.takeWhile Char.isDigit with
    | [] => none
    | fs => parseNumExp neg ip fs (r.dropWhile Char.isDigit)
  | _ => parseNumExp neg ip [] s

/-- A JSON number (grammar `-? int frac? exp?`, `int = 0 | [1-9][0-9]*`). -/
def parseNum (s : List Char) : Option (Json × List Char) :=
  let p := match s with
    | '-' :: r => (true, r)
    | _ => (false, s)
  match p.2 with
  | '0' :: r => parseNumFrac p.1 ['0'] r
  | c :: r =>
    if c.isDigit then parseNumFrac p.1 (c :: r.takeWhile Char.isDigit) (r.dropWhile Char.isDigit)
    else none
  | [] => none

/-- Parsing mode: a value, the inside of an object (allowing `}`), an object
member list, the inside of an array (allowing `]`), an array element list. -/
inductive JMode where
  | value
  | objRest
  | objMember
  | arrRest
  | arrElem

/-- Fueled recursive-descent JSON parser (the fuel only bounds nesting; the
wrapper `jsonParseJs` always passes enough). -/
def parseJ : Nat → JMode → List Char → Option (Json × List Char)
  | 0, _, _ => none
  | f + 1, JMode.value, s0 =>
    let s := s0.dropWhile isJsonWs
    match s with
    | 'n' :: 'u' :: 'l' :: 'l' :: r => some (Json.null, r)
    | 't' :: 'r' :: 'u' :: 'e' :: r => some (Json.bool true, r)
    | 'f' :: 'a' :: 'l' :: 's' :: 'e' :: r => some (Json.bool false, r)
    | '\"' :: r =>
      match parseStrBody r with
      | some (cs, rest) => some (Json.str cs, rest)
      | none => none
    | '\x7b' :: r => parseJ f JMode.objRest r
    | '[' :: r => parseJ f JMode.arrRest r
    | _ => parseNum s
  | f + 1, JMode.objRest, s0 =>
    let s := s0.dropWhile isJsonWs
    match s with
    | '\x7d' :: r => some (Json.obj [], r)
    | _ => parseJ f JMode.objMember s
  | f + 1, JMode.objMember, s0 =>
    let s := s0.dropWhile isJsonWs
    match s with
    | '\"' :: r =>
      match parseStrBody r with
      | some (key, r1) =>
        match r1.dropWhile isJsonWs with
        | ':' :: r2 =>
          match parseJ f JMode.value r2 with
          | some (v, r3) =>
            match r3.dropWhile isJsonWs with
            | ',' :: r4 =>
              match parseJ f JMode.objMember r4 with
              | some (Json.obj fs, r5) => some (Json.obj ((key, v) :: fs), r5)
              | _ => none
            | '\x7d' :: r4 => some (Json.obj [(key, v)], r4)
            | _ => none
          | none => none
        | _ => none
      | none => none
    | _ => none
  | f + 1, JMode.arrRest, s0 =>
    let s := s0.dropWhile isJsonWs
    match s with
    | ']' :: r => some (Json.arr [], r)
    | _ => parseJ f JMode.arrElem s
  | f + 1, JMode.arrElem, s0 =>
    match parseJ f JMode.value s0 with
    | some (v, r1) =>
      match r1.dropWhile isJsonWs with
      | ',' :: r2 =>
        match parseJ f JMode.arrElem r2 with
        | some (Json.arr vs, r3) => some (Json.arr (v :: vs), r3)
        | _ => none
      | ']' :: r2 => some (Json.arr [v], r2)
      | _ => none
    | none => none

/-- JS `JSON.parse` on a whole string: one value, surrounded by whitespace
only. -/
def jsonParseJs (s : List Char) : Option Json :=
  match parseJ (3 * s.length + 3) JMode.value s with
  | some (v, r) => if r.dropWhile isJsonWs = [] then some v else none
  | none => none

/-- JS truthiness of a JSON value (`null`, `false`, numeric zero and the
empty string are falsy; arrays and objects are always truthy). -/
def jsTruthy : Json → Bool
  | Json.null => false
  | Json.bool b => b
  | Json.num _ ip fp => !(ip.all (· = '0') && fp.all (· = '0'))
  | Json.str s => !s.isEmpty
  | Json.arr _ => true
  | Json.obj _ => true

/-- Property lookup on a parsed JSON object; with duplicate keys,
`JSON.parse` keeps the last occurrence. -/
def lookupLast : List (List Char × Json) → List Char → Option Json
  | [], _ => none
  | (k, v) :: rest, key =>
    match lookupLast rest key with
    | some v2 => some v2
    | none => if k = key then some v else none

/-- JS property access `v.k` (undefined — `none` — on non-objects; the
plugin never reads properties that JS inherits from prototypes). -/
def jsGet (v : Json) (k : List Char) : Option Json :=
  match v with
  | Json.obj fs => lookupLast fs k
  | _ => none

/-!  The `}{` boundary heuristic and the DeepSeek frame handler
(`splitConcatenatedJSON`, `parseConcatenatedJSON` in src/main.ts). -/

/-- Index of the first occurrence of the two-character boundary pattern
(closing brace immediately followed by an opening brace), as found by
JS `data.indexOf` in `splitConcatenatedJSON`. -/
def findBoundary : List Char → Option Nat
  | [] => none
  | [_] => none
  | c1 :: c2 :: rest =>
    if c1 = '\x7d' ∧ c2 = '\x7b' then some 0
    else (findBoundary (c2 :: rest)).map (· + 1)

/-- Fueled loop of `splitConcatenatedJSON`: cut after the closing brace of
each boundary and continue from the opening brace. -/
def splitCJFuel : Nat → List Char → List (List Char)
  | 0, s => [s]
  | fuel + 1, s =>
    match findBoundary s with
    | none => [s]
    | some i => s.take (i + 1) :: splitCJFuel fuel (s.drop (i + 1))

/-- `splitConcatenatedJSON` (src/main.ts lines 526-546). The fuel bounds the
number of cuts, which is at most the length of the string. -/
def splitConcatenatedJSON (data : List Char) : List (List Char) :=
  splitCJFuel (data.length + 1) data

/-- Event extraction of `parseConcatenatedJSON` for one parsed JSON object:
`parsed.choices && Array.isArray(parsed.choices)`, then
`parsed.choices[0]?.delta?.content ?? ''`, and an event is yielded only when
that content is truthy. -/
def dsExtract (parsed : Json) : List Json :=
  match parsed with
  | Json.obj fs =>
    match lookupLast fs (toL "choices") with
    | some (Json.arr xs) =>
      match xs.head? with
      | some (Json.obj dfs) =>
        match lookupLast dfs (toL "delta") with
        | some (Json.obj cfs) =>
          match lookupLast cfs (toL "content") with
          | some v => if jsTruthy v then [v] else []
          | none => []
        | _ => []
      | _ => []
    | _ => []
  | _ => []

/-- `parseConcatenatedJSON` (src/main.ts lines 494-524): split the payload on
the brace boundary, `JSON.parse` each fragment, skip fragments that fail to
parse, and emit the delta content of each parsed object. Events carry the
content value (`delta.text` of the yielded chunk). -/
def parseConcatenatedJSON (data : List Char) : List Json :=
  ((splitConcatenatedJSON data).map (fun objString =>
    match jsonParseJs objString with
    | some parsed => dsExtract parsed
    | none => [])).flatten

/-!  The OpenAI per-frame handler (src/main.ts lines 573-585). -/

/-- JS `parsed.choices.length > 0` for the guard in `parseOpenAISSE`
(`.length` of a non-array non-string without a `length` field is undefined,
and `undefined > 0` is false). -/
def oaLenPos : Json → Bool
  | Json.arr xs => !xs.isEmpty
  | Json.str s => !s.isEmpty
  | Json.obj fs =>
    match lookupLast fs (toL "length") with
    | some (Json.num neg ip fp) => !neg && !(ip.all (· = '0') && fp.all (· = '0'))
    | _ => false
  | _ => false

/-- JS indexing `v[0]` (element for arrays, one-character string for strings,
property "0" for objects, undefined otherwise). -/
def jsIndex0 : Json → Option Json
  | Json.arr xs => xs.head?
  | Json.str s => s.head?.map (fun c => Json.str [c])
  | Json.obj fs => lookupLast fs (toL "0")
  | _ => none

/-- Events produced by `parseOpenAISSE` for one `data:` payload: after a
successful `JSON.parse`, if `parsed.choices` is truthy with positive length
the parser yields one event whose text is `choices[0].delta?.content || ''`
— even when that content is empty. An exception thrown by the unguarded
`choices[0].delta` access (`choices[0]` null or undefined) is caught and
the frame skipped. -/
def oaDataEvents (d : List Char) : List Json :=
  match jsonParseJs d with
  | none => []
  | some parsed =>
    match parsed with
    | Json.obj fs =>
      match lookupLast fs (toL "choices") with
      | some cv =>
        if jsTruthy cv && oaLenPos cv then
          match jsIndex0 cv with
          | none => []
          | some Json.null => []
          | some x =>
            match jsGet x (toL "delta") with
            | some (Json.obj cfs) =>
              match lookupLast cfs (toL "content") with
              | some v => if jsTruthy v then [v] else [Json.str []]
              | none => [Json.str []]
            | _ => [Json.str []]
        else []
      | none => []
    | _ => []

/-!  The two SSE line processors.  Both parsers treat a complete line the
same way: trim it, require the `data: ` marker, stop at the `[DONE]`
sentinel, otherwise hand the payload to a frame handler. -/

def dataMarker : List Char := toL "data: "

def doneLit : List Char := toL "[DONE]"

/-- Process a list of complete SSE lines with frame handler `f`: returns the
emitted events and whether the `[DONE]` sentinel terminated the stream. -/
def sseLines (f : List Char → List Json) : List (List Char) → List Json × Bool
  | [] => ([], false)
  | l :: ls =>
    if startsWithL (trimL l) dataMarker then
      if (trimL l).drop 6 = doneLit then ([], true)
      else
        (f ((trimL l).drop 6) ++ (sseLines f ls).1, (sseLines f ls).2)
    else sseLines f ls

/-- State of `parseDeepSeekJSONSSE` between reads: carry-over buffer,
whether `[DONE]` was seen, events emitted so far. -/
structure DSState where
  buffer : List Char
  term : Bool
  events : List Json

/-- One read of `parseDeepSeekJSONSSE` (src/main.ts lines 446-481): append
the chunk to the buffer, split on newlines, process all complete lines,
keep the trailing fragment. After `[DONE]` the generator has returned, so
further chunks are ignored (the buffer is then irrelevant and normalized
to empty). -/
def dsStep (st : DSState) (c : List Char) : DSState :=
  if st.term then st
  else
    { buffer := if (sseLines parseConcatenatedJSON (splitNl (st.buffer ++ c)).1).2 then []
                else (splitNl (st.buffer ++ c)).2,
      term := (sseLines parseConcatenatedJSON (splitNl (st.buffer ++ c)).1).2,
      events := st.events ++ (sseLines parseConcatenatedJSON (splitNl (st.buffer ++ c)).1).1 }

/-- Final flush of `parseDeepSeekJSONSSE` (src/main.ts lines 484-486): if the
stream ended without `[DONE]` and the buffer trims to something non-empty,
parse it as concatenated JSON (note: without the `data: ` check). -/
def dsFinal (st : DSState) : List Json :=
  if st.term then st.events
  else if trimL st.buffer = [] then st.events
  else st.events ++ parseConcatenatedJSON (trimL st.buffer)

/-- `parseDeepSeekJSONSSE` (src/main.ts lines 438-487) on a list of decoded
read chunks: the sequence of emitted delta events. -/
def parseDeepSeekJSONSSE (chunks : List (List Char)) : List Json :=
  dsFinal (chunks.foldl dsStep ⟨[], false, []⟩)

/-- One read of `parseOpenAISSE` (src/main.ts lines 559-589): split just
this chunk on newlines — there is no carry-over buffer — and process every
line, including the trailing fragment. -/
def oaStep (st : Bool × List Json) (c : List Char) : Bool × List Json :=
  if st.1 then st
  else
    ((sseLines oaDataEvents ((splitNl c).1 ++ [(splitNl c).2])).2,
     st.2 ++ (sseLines oaDataEvents ((splitNl c).1 ++ [(splitNl c).2])).1)

/-- `parseOpenAISSE` (src/main.ts lines 554-590) on a list of decoded read
chunks: the sequence of emitted delta events. -/
def parseOpenAISSE (chunks : List (List Char)) : List Json :=
  (chunks.foldl oaStep (false, [])).2

/-- Modelled from the spec (section 8, chunk-boundary invariance): the
events of "every valid `data:` frame in arrival order" for a logical byte
sequence — split the whole sequence into lines, and for each line carrying
the `data: ` marker up to the first `[DONE]` sentinel emit the frame's
delta events. -/
def specFrameEvents : List (List Char) → List Json
  | [] => []
  | l :: ls =>
    if startsWithL (trimL l) dataMarker then
      if (trimL l).drop 6 = doneLit then []
      else parseConcatenatedJSON ((trimL l).drop 6) ++ specFrameEvents ls
    else specFrameEvents ls

/-- Modelled from the spec: the emitted text of a whole logical byte
sequence, independent of chunking. -/
def sseSpec (s : List Char) : List Json :=
  specFrameEvents ((splitNl s).1 ++ [(splitNl s).2])

/-!  The streaming sink (`executePromptStream`, src/main.ts lines 403-436).
The editor is modelled by its document text and selection range (a collapsed
selection is the cursor). -/

structure EditorState where
  content : List Char
  selStart : Nat
  selEnd : Nat

/-- `editor.replaceSelection(t)`: replace the selected range by `t` and
collapse the selection to the end of the inserted text. -/
def replaceSelectionE (ed : EditorState) (t : List Char) : EditorState :=
  { content := ed.content.take ed.selStart ++ t ++ ed.content.drop ed.selEnd,
    selStart := ed.selStart + t.length,
    selEnd := ed.selStart + t.length }

/-- `editor.setCursor(p)`: collapse the selection at position `p`. -/
def setCursorE (ed : EditorState) (p : Nat) : EditorState :=
  { ed with selStart := p, selEnd := p }

/-- A normalized stream chunk as consumed by the sink's loop. -/
inductive StreamChunk where
  | blockStart (t : Option (List Char))
  | blockDelta (t : List Char)
  | other

/-- Body of the `for await` loop of `executePromptStream`: insert the delta
text of `content_block_start` / `content_block_delta` chunks at the cursor. -/
def applyChunk (ed : EditorState) (ch : StreamChunk) : EditorState :=
  match ch with
  | StreamChunk.blockStart t => replaceSelectionE ed (t.getD [])
  | StreamChunk.blockDelta t => replaceSelectionE ed t
  | StreamChunk.other => ed

/-- `executePromptStream` (src/main.ts lines 403-436): capture the
selection's start, delete the selection, place the cursor there; then
consume the stream. `events` are the chunks consumed before the stream
either ends or raises `err`; a raised error produces one notice. -/
def executePromptStream (ed : EditorState) (events : List StreamChunk)
    (err : Option (List Char)) : EditorState × List (List Char) :=
  (events.foldl applyChunk (setCursorE (replaceSelectionE ed []) ed.selStart),
   match err with
   | some m => [toL "Error: " ++ m]
   | none => [])

/-!  The context assembler (`executePrompt`, src/main.ts lines 210-245, and
the three template helpers, lines 103-113). -/

/-- JS `tags.join(";")`. -/
def joinSemi : List (List Char) → List Char
  | [] => []
  | [t] => t
  | t :: ts => t ++ ';' :: joinSemi ts

/-- `createContent` (src/main.ts lines 103-105). -/
def createContent (title : List Char) (tags : List (List Char)) (note : List Char) :
    List Char :=
  toL "<title>" ++ title ++ toL "</title>\n<tags>" ++ joinSemi tags ++
  toL "</tags>\n<note>" ++ note ++ toL "</note>"

/-- `createTaskSelectionContent` (src/main.ts lines 107-109). -/
def createTaskSelectionContent (title : List Char) (tags : List (List Char))
    (note : List Char) (selection : List Char) : List Char :=
  toL "<instruction>" ++ selection ++ toL "</instruction>\n<context>\n<title>" ++
  title ++ toL "</title>\n<tags>" ++ joinSemi tags ++ toL "</tags>\n<note>" ++
  note ++ toL "</note>\n</context>"

/-- `createSelectionContent` (src/main.ts lines 111-113). -/
def createSelectionContent (selection : List Char) : List Char :=
  toL "<instruction>" ++ selection ++ toL "</instruction>"

/-- The text-block assembly of `executePrompt` (src/main.ts lines 225-245):
`selectedText` is `editor.getSelection()` (not trimmed; the JS truthiness
test is emptiness), `fromOffset`/`toOffset` are the selection offsets, and
`note` is the note body. In instruction mode the selected span is sliced out
of the body. -/
def assembleTextContent (selectedText : List Char) (useSelectionAsInstruction : Bool)
    (title : List Char) (tags : List (List Char)) (note : List Char)
    (fromOffset toOffset : Nat) : List Char :=
  if selectedText = [] then createContent title tags note
  else if useSelectionAsInstruction then
    createTaskSelectionContent title tags (note.take fromOffset ++ note.drop toOffset)
      selectedText
  else createSelectionContent selectedText

/-!  Attachments (`getMediaType`, `getLinkedFiles` and the attachment loop
of `executePrompt`, src/main.ts lines 256-294 and 593-631). -/

/-- `getMediaType` (src/main.ts lines 593-611): lookup on the lowercased
extension. -/
def getMediaType (extension : List Char) : List Char :=
  if extension.map Char.toLower = toL "pdf" then toL "application/pdf"
  else if extension.map Char.toLower = toL "png" then toL "image/png"
  else if extension.map Char.toLower = toL "jpg" ∨ extension.map Char.toLower = toL "jpeg" then
    toL "image/jpeg"
  else if extension.map Char.toLower = toL "gif" then toL "image/gif"
  else if extension.map Char.toLower = toL "bmp" then toL "image/bmp"
  else if extension.map Char.toLower = toL "svg" then toL "image/svg+xml"
  else toL "application/octet-stream"

/-- The case-sensitive supported-image list of `executePrompt`
(src/main.ts line 279). -/
def supportedImages : List (List Char) :=
  [toL "png", toL "jpg", toL "jpeg", toL "gif", toL "bmp", toL "svg"]

/-- An attachment content block, as built by the loop in `executePrompt`. -/
inductive ContentBlock where
  | document (mediaType : List Char) (data : List Char)
  | image (mediaType : List Char) (data : List Char)

/-- Body of the attachment loop of `executePrompt` (src/main.ts lines
260-294) for one resolved file: the block added to the content array (if
any) and the notices shown. -/
def processLinkedFile (extension : List Char) (base64Data : List Char) :
    Option ContentBlock × List (List Char) :=
  if extension = toL "pdf" then
    (some (ContentBlock.document (toL "application/pdf") base64Data), [])
  else if extension ∈ supportedImages then
    (some (ContentBlock.image (getMediaType extension) base64Data), [])
  else
    (none, [toL "Unsupported file type: " ++ extension])

/-- Fueled scan for the embed-link pattern of `getLinkedFiles`
(regex `!\[\[([^\]]+)\]\]` with the global flag): returns the captured
names in order. -/
def findEmbedsF : Nat → List Char → List (List Char)
  | 0, _ => []
  | fuel + 1, s =>
    match s with
    | '!' :: '[' :: '[' :: rest =>
      match rest.takeWhile (· ≠ ']'), rest.dropWhile (· ≠ ']') with
      | n :: ns, ']' :: ']' :: tail => (n :: ns) :: findEmbedsF fuel tail
      | _, _ => findEmbedsF fuel ('[' :: '[' :: rest)
    | _ :: cs => findEmbedsF fuel cs
    | [] => []

/-- All embed-link names in a text, in order. -/
def findEmbeds (s : List Char) : List (List Char) :=
  findEmbedsF (s.length + 1) s

/-- `getLinkedFiles` (src/main.ts lines 614-631): resolve each embed link
through the link-resolution collaborator; a link resolving to null yields a
"File not found" notice and no file. Returns (files, notices). -/
def getLinkedFiles {α : Type} (resolve : List Char → Option α) (content : List Char) :
    List α × List (List Char) :=
  (findEmbeds content).foldl
    (fun acc fileName =>
      match resolve fileName with
      | some f => (acc.1 ++ [f], acc.2)
      | none => (acc.1, acc.2 ++ [toL "File not found: " ++ fileName]))
    ([], [])

/-!  Claim theorems: streaming sink and context assembler. -/

/-- C2: in `executePromptStream` the selection is deleted and the cursor
moved to its start before any stream chunk is applied — the final editor
state is always the event fold starting from the cleared state — and when
the provider call fails before yielding any event, the document shows the
selection deleted, an empty (collapsed) selection at its start, no inserted
text, and exactly one error notification. -/
theorem C2_selection_cleared :
    ∀ (ed : EditorState) (events : List StreamChunk) (err : Option (List Char))
      (m : List Char),
      (executePromptStream ed events err).1 =
        events.foldl applyChunk
          ⟨ed.content.take ed.selStart ++ ed.content.drop ed.selEnd,
           ed.selStart, ed.selStart⟩ ∧
      executePromptStream ed [] (some m) =
        (⟨ed.content.take ed.selStart ++ ed.content.drop ed.selEnd,
          ed.selStart, ed.selStart⟩,
         [toL "Error: " ++ m]) := by
  intro ed events err m
  constructor
  · simp [executePromptStream, replaceSelectionE, setCursorE]
  · simp [executePromptStream, replaceSelectionE, setCursorE]

/-- C4 counterexample: a whitespace-only (but non-empty) selection is not
treated as "no selection": `executePrompt` assembles the selection wrapping,
not the whole-note wrapping. -/
theorem C4_counterexample :
    assembleTextContent (toL " ") false (toL "T") [] (toL "Hello") 0 1 =
      toL "<instruction> </instruction>" ∧
    assembleTextContent (toL " ") false (toL "T") [] (toL "Hello") 0 1 ≠
      createContent (toL "T") [] (toL "Hello") := by
  constructor
  · rfl
  · decide

/-- C4 (amended): `executePrompt` tests the raw selection for emptiness
without trimming, so the whole-note wrapping is used exactly when the
selection is the empty string; any non-empty selection — including one made
only of whitespace — takes the selection branch. -/
theorem C4_amended :
    ∀ (selectedText : List Char) (useSel : Bool) (title : List Char)
      (tags : List (List Char)) (note : List Char) (f t : Nat),
      (selectedText = [] →
        assembleTextContent selectedText useSel title tags note f t =
          createContent title tags note) ∧
      (selectedText ≠ [] →
        assembleTextContent selectedText useSel title tags note f t =
          (if useSel then
            createTaskSelectionContent title tags (note.take f ++ note.drop t)
              selectedText
          else createSelectionContent selectedText)) := by
  intro st us title tags note f t
  constructor
  · intro h; simp [assembleTextContent, h]
  · intro h; simp [assembleTextContent, h]

/-- C4 witness: the amended statement at the whitespace-only selection. -/
theorem C4_amended_witness :
    assembleTextContent (toL " ") false (toL "T") [] (toL "Hello") 0 1 =
      (if false then
        createTaskSelectionContent (toL "T") []
          ((toL "Hello").take 0 ++ (toL "Hello").drop 1) (toL " ")
      else createSelectionContent (toL " ")) :=
  (C4_amended (toL " ") false (toL "T") [] (toL "Hello") 0 1).2 (by decide)

/-- C6: in instruction mode the selected span (by offsets) is sliced out of
the note body and the result wrapped with the instruction tags; concretely,
body "ABCDEF" with selection "CD" at offsets 2..4 gives sliced body "ABEF"
and the displayed wrapping. -/
theorem C6_instruction_mode :
    (∀ (title : List Char) (tags : List (List Char)) (note sel : List Char)
       (f t : Nat), sel ≠ [] →
       assembleTextContent sel true title tags note f t =
         createTaskSelectionContent title tags (note.take f ++ note.drop t) sel) ∧
    assembleTextContent (toL "CD") true (toL "T") [toL "a"] (toL "ABCDEF") 2 4 =
      toL "<instruction>CD</instruction>\n<context>\n<title>T</title>\n<tags>a</tags>\n<note>ABEF</note>\n</context>" ∧
    (toL "ABCDEF").take 2 ++ (toL "ABCDEF").drop 4 = toL "ABEF" := by
  refine ⟨?_, by decide, by decide⟩
  intro title tags note sel f t h
  simp [assembleTextContent, h]

/-- C6 witness: the universal part applied to the claim's instance. -/
theorem C6_instruction_mode_witness :
    assembleTextContent (toL "CD") true (toL "T") [toL "a"] (toL "ABCDEF") 2 4 =
      createTaskSelectionContent (toL "T") [toL "a"]
        ((toL "ABCDEF").take 2 ++ (toL "ABCDEF").drop 4) (toL "CD") :=
  C6_instruction_mode.1 (toL "T") [toL "a"] (toL "ABCDEF") (toL "CD") 2 4 (by decide)

/-!  Claim theorems: attachments. -/

/-- C9: `getLinkedFiles` returns exactly the resolvable links (in order) and
one "File not found" notice per unresolvable link; resolution failures do
not disturb the other links, and the function is total (no exception). The
last conjunct is the spec's concrete instance. -/
theorem C9_unresolved_links :
    ∀ (α : Type) (resolve : List Char → Option α) (content : List Char),
      (getLinkedFiles resolve content).1 = (findEmbeds content).filterMap resolve ∧
      (getLinkedFiles resolve content).2 =
        ((findEmbeds content).filter (fun n => (resolve n).isNone)).map
          (fun n => toL "File not found: " ++ n) ∧
      getLinkedFiles (fun _ => (none : Option Unit)) (toL "see ![[missing.png]] end") =
        ([], [toL "File not found: missing.png"]) := by
  have aux : ∀ (α : Type) (resolve : List Char → Option α)
      (names : List (List Char)) (acc : List α × List (List Char)),
      names.foldl
        (fun acc fileName =>
          match resolve fileName with
          | some f => (acc.1 ++ [f], acc.2)
          | none => (acc.1, acc.2 ++ [toL "File not found: " ++ fileName])) acc =
      (acc.1 ++ names.filterMap resolve,
       acc.2 ++ (names.filter (fun n => (resolve n).isNone)).map
         (fun n => toL "File not found: " ++ n)) := by
    intro α resolve names
    induction names with
    | nil => intro acc; simp
    | cons n ns ih =>
      intro acc
      cases h : resolve n with
      | some f =>
        simp [List.foldl_cons, h, ih, List.filterMap_cons, List.filter_cons,
          List.append_assoc]
      | none =>
        simp [List.foldl_cons, h, ih, List.filterMap_cons, List.filter_cons,
          List.append_assoc]
  intro α resolve content
  refine ⟨?_, ?_, by rfl⟩
  · rw [getLinkedFiles, aux]; simp
  · rw [getLinkedFiles, aux]; simp

/-- C10: the supported-extension test of `executePrompt` is case-sensitive,
so an upper- or mixed-case variant of a supported image extension produces
an "Unsupported file type" notice and no content block, even though
`getMediaType` (which lowercases) returns the correct image media type for
the very same extension. -/
theorem C10_case_sensitive_extensions :
    ∀ (ext base64Data : List Char),
      ext.map Char.toLower ∈ supportedImages →
      ext ∉ supportedImages →
      (processLinkedFile ext base64Data).1 = none ∧
      (processLinkedFile ext base64Data).2 = [toL "Unsupported file type: " ++ ext] ∧
      getMediaType ext ≠ toL "application/octet-stream" ∧
      getMediaType ext = getMediaType (ext.map Char.toLower) := by
  intro ext d h1 h2
  have hpdf : ext ≠ toL "pdf" := by
    intro he
    rw [he] at h1
    revert h1
    decide
  have h6 := h1
  simp only [supportedImages, List.mem_cons, List.not_mem_nil, or_false] at h6
  refine ⟨?_, ?_, ?_, ?_⟩
  · simp [processLinkedFile, hpdf, h2]
  · simp [processLinkedFile, hpdf, h2]
  · rcases h6 with h | h | h | h | h | h <;> (unfold getMediaType; rw [h]; decide)
  · rcases h6 with h | h | h | h | h | h <;> (unfold getMediaType; rw [h]; decide)

/-- C10 witness: a file with extension "PNG". -/
theorem C10_case_sensitive_extensions_witness :
    (processLinkedFile (toL "PNG") []).1 = none ∧
    (processLinkedFile (toL "PNG") []).2 = [toL "Unsupported file type: " ++ toL "PNG"] ∧
    getMediaType (toL "PNG") ≠ toL "application/octet-stream" ∧
    getMediaType (toL "PNG") = getMediaType ((toL "PNG").map Char.toLower) :=
  C10_case_sensitive_extensions (toL "PNG") [] (by decide) (by decide)

/-!  Claim theorems: the brace-boundary split. -/

theorem findBoundary_append (s : List Char) :
    ∀ rest : List Char, findBoundary s = none → s.getLast? = some '\x7d' →
      rest.head? = some '\x7b' → findBoundary (s ++ rest) = some (s.length - 1) := by
  induction s with
  | nil => intro rest hnb hlast _; simp at hlast
  | cons c cs ih =>
    intro rest hnb hlast hhead
    cases cs with
    | nil =>
      have hc : c = '\x7d' := by simpa using hlast
      subst hc
      cases rest with
      | nil => simp at hhead
      | cons r rt =>
        have hr : r = '\x7b' := by simpa using hhead
        subst hr
        simp [findBoundary]
    | cons c2 cs2 =>
      have hsplit : ¬(c = '\x7d' ∧ c2 = '\x7b') := by
        intro ⟨h1, h2⟩
        rw [findBoundary, if_pos ⟨h1, h2⟩] at hnb
        exact Option.noConfusion hnb
      rw [findBoundary, if_neg hsplit] at hnb
      have hnb2 : findBoundary (c2 :: cs2) = none := by
        cases h : findBoundary (c2 :: cs2) with
        | none => rfl
        | some i => rw [h] at hnb; simp at hnb
      have hlast2 : (c2 :: cs2).getLast? = some '\x7d' := by
        rwa [List.getLast?_cons_cons] at hlast
      have := ih rest hnb2 hlast2 hhead
      rw [List.cons_append, List.cons_append, findBoundary, if_neg hsplit,
        ← List.cons_append, this]
      simp [List.length_cons]

theorem splitCJFuel_no_boundary (fuel : Nat) (s : List Char)
    (h : findBoundary s = none) : splitCJFuel fuel s = [s] := by
  cases fuel with
  | zero => rfl
  | succ f => simp [splitCJFuel, h]

theorem splitCJ_roundtrip_fuel :
    ∀ (ss : List (List Char)) (fuel : Nat), ss ≠ [] →
      (∀ s ∈ ss, s ≠ [] ∧ s.head? = some '\x7b' ∧ s.getLast? = some '\x7d' ∧
        findBoundary s = none) →
      ss.flatten.length < fuel →
      splitCJFuel fuel ss.flatten = ss := by
  intro ss
  induction ss with
  | nil => intro fuel h; exact absurd rfl h
  | cons s ss ih =>
    intro fuel _ hall hlen
    obtain ⟨hne, _, hlast, hnb⟩ := hall s (List.mem_cons_self s ss)
    cases ss with
    | nil =>
      simp only [List.flatten_cons, List.flatten_nil, List.append_nil] at hlen ⊢
      exact splitCJFuel_no_boundary fuel s hnb
    | cons s2 ss2 =>
      obtain ⟨hne2, hhead2, _, _⟩ := hall s2 (List.mem_cons_of_mem s (List.mem_cons_self s2 ss2))
      have hheadf : (s2 :: ss2).flatten.head? = some '\x7b' := by
        rw [List.flatten_cons, List.head?_append]
        cases s2 with
        | nil => exact absurd rfl hne2
        | cons a t => simpa using hhead2
      have hfb := findBoundary_append s (s2 :: ss2).flatten hnb hlast hheadf
      have hpos : 1 ≤ s.length := List.length_pos.mpr hne
      cases fuel with
      | zero =>
        rw [List.flatten_cons] at hlen
        omega
      | succ f =>
        have hi : s.length - 1 + 1 = s.length := by omega
        have hstep : splitCJFuel (f + 1) (s ++ (s2 :: ss2).flatten) =
            List.take (s.length - 1 + 1) (s ++ (s2 :: ss2).flatten) ::
              splitCJFuel f (List.drop (s.length - 1 + 1) (s ++ (s2 :: ss2).flatten)) := by
          simp only [splitCJFuel]
          rw [hfb]
        rw [List.flatten_cons, hstep, hi, List.take_left, List.drop_left]
        have hlen2 : (s2 :: ss2).flatten.length < f := by
          rw [List.flatten_cons, List.length_append] at hlen
          have := List.length_pos.mpr hne
          omega
        rw [ih f (List.cons_ne_nil s2 ss2)
          (fun x hx => hall x (List.mem_cons_of_mem s hx)) hlen2]

/-- C5 counterexample: a single valid JSON object string containing the
brace boundary inside a string literal is cut apart by
`splitConcatenatedJSON`, so the round trip fails. (The Lean string literal
spells the braces of the JSON text `{"a":"}{"}` as hex escapes.) -/
theorem C5_counterexample :
    (jsonParseJs (toL "\x7b\"a\":\"\x7d\x7b\"\x7d")).isSome = true ∧
    (toL "\x7b\"a\":\"\x7d\x7b\"\x7d").head? = some '\x7b' ∧
    (toL "\x7b\"a\":\"\x7d\x7b\"\x7d").getLast? = some '\x7d' ∧
    splitConcatenatedJSON (List.flatten [toL "\x7b\"a\":\"\x7d\x7b\"\x7d"]) ≠
      [toL "\x7b\"a\":\"\x7d\x7b\"\x7d"] := by
  refine ⟨by decide, by decide, by decide, by decide⟩

/-- C5 (amended): the round trip holds for every non-empty list of object
strings that each begin with an opening brace, end with a closing brace and
do not themselves contain the two-character brace boundary (the non-nested
case the heuristic is designed for). -/
theorem C5_amended :
    ∀ ss : List (List Char), ss ≠ [] →
      (∀ s ∈ ss, s ≠ [] ∧ s.head? = some '\x7b' ∧ s.getLast? = some '\x7d' ∧
        findBoundary s = none) →
      splitConcatenatedJSON ss.flatten = ss := by
  intro ss h1 h2
  exact splitCJ_roundtrip_fuel ss _ h1 h2 (Nat.lt_succ_self _)

/-- C5 witness: two abutted object strings are split back apart. -/
theorem C5_amended_witness :
    splitConcatenatedJSON (List.flatten [toL "\x7b\"a\":1\x7d", toL "\x7b\"b\":2\x7d"]) =
      [toL "\x7b\"a\":1\x7d", toL "\x7b\"b\":2\x7d"] :=
  C5_amended [toL "\x7b\"a\":1\x7d", toL "\x7b\"b\":2\x7d"] (by decide) (by decide)

/-!  Claim theorems: non-empty delta events. -/

theorem dsExtract_truthy (parsed e : Json) (h : e ∈ dsExtract parsed) :
    jsTruthy e = true := by
  unfold dsExtract at h
  repeat' split at h
  all_goals
    first
    | exact absurd h (List.not_mem_nil e)
    | (rw [List.mem_singleton] at h; subst h; assumption)

/-- C3 (amended): every event emitted by the DeepSeek frame handler
`parseConcatenatedJSON` carries truthy content — in particular a frame whose
`choices[0].delta.content` is empty or absent never produces an event. (The
OpenAI parser does not share this invariant; see the counterexample.) -/
theorem C3_amended :
    ∀ (data : List Char) (e : Json), e ∈ parseConcatenatedJSON data →
      jsTruthy e = true := by
  intro data e h
  unfold parseConcatenatedJSON at h
  rw [List.mem_flatten] at h
  obtain ⟨l, hl, hel⟩ := h
  rw [List.mem_map] at hl
  obtain ⟨objString, _, rfl⟩ := hl
  cases hp : jsonParseJs objString with
  | none => rw [hp] at hel; simp at hel
  | some parsed => rw [hp] at hel; exact dsExtract_truthy parsed e hel

/-- C3 counterexample: `parseOpenAISSE` emits an event with empty delta text
from a successfully parsed frame whose `choices[0].delta` has no `content`
field — refuting the claim that both SSE parsers never emit empty deltas. -/
theorem C3_counterexample :
    parseOpenAISSE [toL "data: \x7b\"choices\":[\x7b\"delta\":\x7b\x7d\x7d]\x7d\n"] =
      [Json.str []] ∧
    (jsonParseJs (toL "\x7b\"choices\":[\x7b\"delta\":\x7b\x7d\x7d]\x7d")).isSome = true ∧
    jsTruthy (Json.str []) = false := by
  exact ⟨rfl, rfl, rfl⟩

/-- C3 witness: the amended statement applied to a concrete frame with
content "A". -/
theorem C3_amended_witness : jsTruthy (Json.str (toL "A")) = true := by
  have hev : parseConcatenatedJSON
      (toL "\x7b\"choices\":[\x7b\"delta\":\x7b\"content\":\"A\"\x7d\x7d]\x7d") =
      [Json.str (toL "A")] := rfl
  exact C3_amended _ _ (by rw [hev]; exact List.mem_singleton.mpr rfl)

/-!  Composition lemmas for the SSE line processor and the DeepSeek state
machine. -/

theorem sseLines_append (f : List Char → List Json) (l1 l2 : List (List Char)) :
    sseLines f (l1 ++ l2) =
      if (sseLines f l1).2 then sseLines f l1
      else ((sseLines f l1).1 ++ (sseLines f l2).1, (sseLines f l2).2) := by
  induction l1 with
  | nil => simp [sseLines]
  | cons l ls ih =>
    by_cases h1 : startsWithL (trimL l) dataMarker = true
    · by_cases h2 : (trimL l).drop 6 = doneLit
      · simp [sseLines, h1, h2]
      · by_cases h3 : (sseLines f ls).2 = true
        · simp [sseLines, h1, h2, ih, h3]
        · simp [sseLines, h1, h2, ih, h3, List.append_assoc]
    · simp [sseLines, h1, ih]

theorem specFrameEvents_eq_sseLines (ls : List (List Char)) :
    specFrameEvents ls = (sseLines parseConcatenatedJSON ls).1 := by
  induction ls with
  | nil => rfl
  | cons l ls ih =>
    by_cases h1 : startsWithL (trimL l) dataMarker = true
    · by_cases h2 : (trimL l).drop 6 = doneLit
      · simp [specFrameEvents, sseLines, h1, h2]
      · simp [specFrameEvents, sseLines, h1, h2, ih]
    · simp [specFrameEvents, sseLines, h1, ih]

theorem sseLines_done (f : List Char → List Json) (ls : List (List Char)) :
    sseLines f (toL "data: [DONE]" :: ls) = ([], true) := by
  have h1 : startsWithL (trimL (toL "data: [DONE]")) dataMarker = true := by decide
  have h2 : (trimL (toL "data: [DONE]")).drop 6 = doneLit := by decide
  simp [sseLines, h1, h2]

theorem sseLines_nil_line (f : List Char → List Json) :
    sseLines f [[]] = ([], false) := by
  have h1 : startsWithL (trimL []) dataMarker = false := by decide
  simp [sseLines, h1]

theorem dsStep_term (st : DSState) (c : List Char) (h : st.term = true) :
    dsStep st c = st := by
  simp [dsStep, h]

theorem foldl_dsStep_term (cs : List (List Char)) :
    ∀ st : DSState, st.term = true → cs.foldl dsStep st = st := by
  induction cs with
  | nil => intro st _; rfl
  | cons c cs ih =>
    intro st h
    rw [List.foldl_cons, dsStep_term st c h, ih st h]

theorem dsStep_comp (st : DSState) (c1 c2 : List Char) :
    dsStep (dsStep st c1) c2 = dsStep st (c1 ++ c2) := by
  by_cases ht : st.term = true
  · rw [dsStep_term st c1 ht, dsStep_term st c2 ht, dsStep_term st (c1 ++ c2) ht]
  · have hsp : splitNl (st.buffer ++ (c1 ++ c2)) =
        ((splitNl (st.buffer ++ c1)).1 ++
          (splitNl ((splitNl (st.buffer ++ c1)).2 ++ c2)).1,
         (splitNl ((splitNl (st.buffer ++ c1)).2 ++ c2)).2) := by
      rw [← List.append_assoc, splitNl_append (st.buffer ++ c1) c2,
        splitNl_buffer_append _ c2 (splitNl_snd_noNl (st.buffer ++ c1))]
    by_cases h1 : (sseLines parseConcatenatedJSON (splitNl (st.buffer ++ c1)).1).2 = true
    · have hstep1 : dsStep st c1 =
          ⟨[], true, st.events ++ (sseLines parseConcatenatedJSON (splitNl (st.buffer ++ c1)).1).1⟩ := by
        simp [dsStep, ht, h1]
      rw [hstep1, dsStep_term _ c2 rfl]
      simp only [dsStep, ht, if_false, Bool.false_eq_true, hsp,
        sseLines_append parseConcatenatedJSON, h1, if_true]
    · have hstep1 : dsStep st c1 =
          ⟨(splitNl (st.buffer ++ c1)).2, false,
           st.events ++ (sseLines parseConcatenatedJSON (splitNl (st.buffer ++ c1)).1).1⟩ := by
        simp [dsStep, ht, h1]
      rw [hstep1]
      simp only [dsStep, ht, Bool.false_eq_true, if_false, hsp,
        sseLines_append parseConcatenatedJSON, h1]
      simp [h1, List.append_assoc]

theorem dsStep_nil (st : DSState) (h : '\n' ∉ st.buffer) : dsStep st [] = st := by
  obtain ⟨b, t, e⟩ := st
  cases t with
  | true => rfl
  | false =>
    have hb : splitNl b = ([], b) := splitNl_of_noNl b h
    simp [dsStep, hb, sseLines]

theorem dsStep_buffer_noNl (st : DSState) (c : List Char) (h : '\n' ∉ st.buffer) :
    '\n' ∉ (dsStep st c).buffer := by
  by_cases ht : st.term = true
  · rw [dsStep_term st c ht]; exact h
  · by_cases h1 : (sseLines parseConcatenatedJSON (splitNl (st.buffer ++ c)).1).2 = true
    · simp [dsStep, ht, h1]
    · simp only [dsStep, ht, Bool.false_eq_true, if_false, h1]
      exact splitNl_snd_noNl (st.buffer ++ c)

theorem foldl_dsStep_flatten (cs : List (List Char)) :
    ∀ st : DSState, '\n' ∉ st.buffer → cs.foldl dsStep st = dsStep st cs.flatten := by
  induction cs with
  | nil =>
    intro st h
    rw [List.flatten_nil, dsStep_nil st h]
    rfl
  | cons c cs ih =>
    intro st h
    rw [List.foldl_cons, ih (dsStep st c) (dsStep_buffer_noNl st c h), dsStep_comp,
      List.flatten_cons]

theorem oaStep_term (st : Bool × List Json) (c : List Char) (h : st.1 = true) :
    oaStep st c = st := by
  simp [oaStep, h]

theorem foldl_oaStep_term (cs : List (List Char)) :
    ∀ st : Bool × List Json, st.1 = true → cs.foldl oaStep st = st := by
  induction cs with
  | nil => intro st _; rfl
  | cons c cs ih =>
    intro st h
    rw [List.foldl_cons, oaStep_term st c h, ih st h]

theorem dsStep_init_nl (t : List Char) :
    dsStep ⟨[], false, []⟩ (t ++ ['\n']) =
      ⟨[], (sseLines parseConcatenatedJSON ((splitNl t).1 ++ [(splitNl t).2])).2,
       (sseLines parseConcatenatedJSON ((splitNl t).1 ++ [(splitNl t).2])).1⟩ := by
  have hsp : splitNl (t ++ ['\n']) = ((splitNl t).1 ++ [(splitNl t).2], []) := by
    rw [splitNl_append t ['\n']]
    simp [splitNlStep]
  simp [dsStep, hsp]

/-- C1 (amended): the DeepSeek SSE parser is chunk-boundary invariant — its
emitted events depend only on the concatenation of the decoded read chunks —
and on a newline-terminated byte sequence its emitted events are exactly
those of every valid `data:` frame of the whole sequence, in arrival order,
up to the first `[DONE]` sentinel (`sseSpec`). The OpenAI SSE parser does
not share the invariance (see the counterexample). -/
theorem C1_amended :
    (∀ cs1 cs2 : List (List Char), cs1.flatten = cs2.flatten →
       parseDeepSeekJSONSSE cs1 = parseDeepSeekJSONSSE cs2) ∧
    (∀ (cs : List (List Char)) (t : List Char), cs.flatten = t ++ ['\n'] →
       parseDeepSeekJSONSSE cs = sseSpec cs.flatten) := by
  constructor
  · intro cs1 cs2 h
    unfold parseDeepSeekJSONSSE
    rw [foldl_dsStep_flatten cs1 ⟨[], false, []⟩ (by simp),
      foldl_dsStep_flatten cs2 ⟨[], false, []⟩ (by simp), h]
  · intro cs t h
    have happnil : ∀ (f : List Char → List Json) (L : List (List Char)),
        (sseLines f (L ++ [[]])).1 = (sseLines f L).1 := by
      intro f L
      rw [sseLines_append, sseLines_nil_line]
      by_cases hb : (sseLines f L).2 = true <;> simp [hb]
    unfold parseDeepSeekJSONSSE
    rw [foldl_dsStep_flatten cs ⟨[], false, []⟩ (by simp), h, dsStep_init_nl]
    unfold sseSpec
    have hsp : splitNl (t ++ ['\n']) = ((splitNl t).1 ++ [(splitNl t).2], []) := by
      rw [splitNl_append t ['\n']]
      simp [splitNlStep]
    rw [hsp, specFrameEvents_eq_sseLines]
    rw [show ((((splitNl t).1 ++ [(splitNl t).2]), ([] : List Char)).1 ++
        [(((splitNl t).1 ++ [(splitNl t).2]), ([] : List Char)).2]) =
        ((splitNl t).1 ++ [(splitNl t).2]) ++ [[]] from rfl]
    rw [happnil]
    by_cases h2 : (sseLines parseConcatenatedJSON ((splitNl t).1 ++ [(splitNl t).2])).2 = true
    · simp [dsFinal, h2]
    · simp [dsFinal, h2, show trimL ([] : List Char) = [] from rfl]

/-- C1 counterexample: the same logical byte sequence, split once in the
middle of a frame's JSON, makes `parseOpenAISSE` emit different text than
the unsplit sequence (nothing instead of "hi") — the OpenAI parser keeps no
carry-over buffer across reads, so the claim fails for it. -/
theorem C1_counterexample :
    List.flatten [toL "data: \x7b\"choices\":[\x7b\"delta\":\x7b\"con",
        toL "tent\":\"hi\"\x7d\x7d]\x7d\n"] =
      List.flatten [toL "data: \x7b\"choices\":[\x7b\"delta\":\x7b\"con" ++
        toL "tent\":\"hi\"\x7d\x7d]\x7d\n"] ∧
    parseOpenAISSE [toL "data: \x7b\"choices\":[\x7b\"delta\":\x7b\"con",
        toL "tent\":\"hi\"\x7d\x7d]\x7d\n"] = [] ∧
    parseOpenAISSE [toL "data: \x7b\"choices\":[\x7b\"delta\":\x7b\"con" ++
        toL "tent\":\"hi\"\x7d\x7d]\x7d\n"] = [Json.str (toL "hi")] ∧
    parseOpenAISSE [toL "data: \x7b\"choices\":[\x7b\"delta\":\x7b\"con",
        toL "tent\":\"hi\"\x7d\x7d]\x7d\n"] ≠
      parseOpenAISSE [toL "data: \x7b\"choices\":[\x7b\"delta\":\x7b\"con" ++
        toL "tent\":\"hi\"\x7d\x7d]\x7d\n"] := by
  refine ⟨by simp, rfl, rfl, ?_⟩
  intro h
  rw [show parseOpenAISSE [toL "data: \x7b\"choices\":[\x7b\"delta\":\x7b\"con",
      toL "tent\":\"hi\"\x7d\x7d]\x7d\n"] = [] from rfl,
    show parseOpenAISSE [toL "data: \x7b\"choices\":[\x7b\"delta\":\x7b\"con" ++
      toL "tent\":\"hi\"\x7d\x7d]\x7d\n"] = [Json.str (toL "hi")] from rfl] at h
  exact List.noConfusion h

/-- C1 witness: the invariance at a concrete re-chunking and the frame
equality at a concrete newline-terminated stream. -/
theorem C1_amended_witness :
    parseDeepSeekJSONSSE [toL "data: \x7b\"choices\":[\x7b\"delta\":\x7b\"con",
        toL "tent\":\"hi\"\x7d\x7d]\x7d\n"] =
      parseDeepSeekJSONSSE [toL "data: \x7b\"choices\":[\x7b\"delta\":\x7b\"con" ++
        toL "tent\":\"hi\"\x7d\x7d]\x7d\n"] ∧
    parseDeepSeekJSONSSE [toL "data: \x7b\"choices\":[\x7b\"delta\":\x7b\"content\":\"hi\"\x7d\x7d]\x7d\n"] =
      sseSpec (List.flatten [toL "data: \x7b\"choices\":[\x7b\"delta\":\x7b\"content\":\"hi\"\x7d\x7d]\x7d\n"]) :=
  ⟨C1_amended.1 _ _ (by simp),
   C1_amended.2 [toL "data: \x7b\"choices\":[\x7b\"delta\":\x7b\"content\":\"hi\"\x7d\x7d]\x7d\n"]
     (toL "data: \x7b\"choices\":[\x7b\"delta\":\x7b\"content\":\"hi\"\x7d\x7d]\x7d") (by decide)⟩

/-- C8: once a `data: [DONE]` sentinel line arrives, neither parser emits
events for any later bytes — neither for the rest of the same read chunk nor
for any later chunk. (For the DeepSeek parser the sentinel must start at a
line boundary, hence the hypothesis that the preceding bytes end with a
newline or are empty; the OpenAI parser splits each chunk independently.) -/
theorem C8_done_sentinel :
    ∀ (cs : List (List Char)) (b : List Char) (ds : List (List Char)),
      (cs.flatten = [] ∨ ∃ t, cs.flatten = t ++ ['\n']) →
      parseDeepSeekJSONSSE (cs ++ (toL "data: [DONE]\n" ++ b) :: ds) =
        parseDeepSeekJSONSSE cs ∧
      parseOpenAISSE (cs ++ (toL "data: [DONE]\n" ++ b) :: ds) = parseOpenAISSE cs := by
  intro cs b ds hend
  have hXsplit : splitNl (toL "data: [DONE]\n" ++ b) =
      (toL "data: [DONE]" :: (splitNl b).1, (splitNl b).2) := by
    rw [show toL "data: [DONE]\n" = toL "data: [DONE]" ++ ['\n'] from rfl,
      List.append_assoc, show ['\n'] ++ b = '\n' :: b from rfl]
    exact splitNl_cons_nl _ b (by decide)
  constructor
  · have hst1 : cs.foldl dsStep ⟨[], false, []⟩ = dsStep ⟨[], false, []⟩ cs.flatten :=
      foldl_dsStep_flatten cs _ (by simp)
    have hbuf : (cs.foldl dsStep ⟨[], false, []⟩).buffer = [] := by
      rcases hend with h | ⟨t, h⟩
      · rw [hst1, h, dsStep_nil _ (by simp)]
      · rw [hst1, h, dsStep_init_nl]
    unfold parseDeepSeekJSONSSE
    rw [List.foldl_append]
    by_cases ht : (cs.foldl dsStep ⟨[], false, []⟩).term = true
    · rw [List.foldl_cons, dsStep_term _ _ ht, foldl_dsStep_term ds _ ht]
    · have hstep : dsStep (cs.foldl dsStep ⟨[], false, []⟩) (toL "data: [DONE]\n" ++ b) =
          ⟨[], true, (cs.foldl dsStep ⟨[], false, []⟩).events⟩ := by
        simp only [dsStep, ht, if_false, Bool.false_eq_true]
        rw [hbuf, List.nil_append, hXsplit]
        simp [sseLines_done]
      rw [List.foldl_cons, hstep, foldl_dsStep_term ds _ rfl]
      simp [dsFinal, ht, hbuf, show trimL ([] : List Char) = [] from rfl]
  · unfold parseOpenAISSE
    rw [List.foldl_append]
    by_cases ht : (cs.foldl oaStep (false, [])).1 = true
    · rw [List.foldl_cons, oaStep_term _ _ ht, foldl_oaStep_term ds _ ht]
    · have hstep : oaStep (cs.foldl oaStep (false, [])) (toL "data: [DONE]\n" ++ b) =
          (true, (cs.foldl oaStep (false, [])).2) := by
        simp only [oaStep, ht, if_false, Bool.false_eq_true]
        rw [hXsplit]
        simp only [List.cons_append, sseLines_done]
        simp
      rw [List.foldl_cons, hstep, foldl_oaStep_term ds _ rfl]

/-- C8 witness: a valid frame, then `[DONE]`, then a further frame arriving
in the same read: only the first frame's event is emitted. -/
theorem C8_done_sentinel_witness :
    parseDeepSeekJSONSSE
        ([toL "data: \x7b\"choices\":[\x7b\"delta\":\x7b\"content\":\"A\"\x7d\x7d]\x7d\n"] ++
          (toL "data: [DONE]\n" ++
            toL "data: \x7b\"choices\":[\x7b\"delta\":\x7b\"content\":\"B\"\x7d\x7d]\x7d\n") :: []) =
      parseDeepSeekJSONSSE
        [toL "data: \x7b\"choices\":[\x7b\"delta\":\x7b\"content\":\"A\"\x7d\x7d]\x7d\n"] ∧
    parseOpenAISSE
        ([toL "data: \x7b\"choices\":[\x7b\"delta\":\x7b\"content\":\"A\"\x7d\x7d]\x7d\n"] ++
          (toL "data: [DONE]\n" ++
            toL "data: \x7b\"choices\":[\x7b\"delta\":\x7b\"content\":\"B\"\x7d\x7d]\x7d\n") :: []) =
      parseOpenAISSE
        [toL "data: \x7b\"choices\":[\x7b\"delta\":\x7b\"content\":\"A\"\x7d\x7d]\x7d\n"] :=
  C8_done_sentinel
    [toL "data: \x7b\"choices\":[\x7b\"delta\":\x7b\"content\":\"A\"\x7d\x7d]\x7d\n"]
    (toL "data: \x7b\"choices\":[\x7b\"delta\":\x7b\"content\":\"B\"\x7d\x7d]\x7d\n") []
    (Or.inr ⟨toL "data: \x7b\"choices\":[\x7b\"delta\":\x7b\"content\":\"A\"\x7d\x7d]\x7d",
      by decide⟩)

theorem startsWithL_append_self (p x : List Char) :
    startsWithL (p ++ x) p = true := by
  induction p with
  | nil => cases x <;> rfl
  | cons c p ih => simp [startsWithL, ih]

theorem noNl_append (a b : List Char) (ha : '\n' ∉ a) (hb : '\n' ∉ b) :
    '\n' ∉ a ++ b := by
  intro hm
  rcases List.mem_append.mp hm with h | h
  · exact ha h
  · exact hb h

theorem parseConcatenatedJSON_eq_nil (d : List Char)
    (h : ∀ p ∈ splitConcatenatedJSON d, (jsonParseJs p).isNone = true) :
    parseConcatenatedJSON d = [] := by
  unfold parseConcatenatedJSON
  rw [List.flatten_eq_nil_iff]
  intro l hl
  rw [List.mem_map] at hl
  obtain ⟨p, hp, rfl⟩ := hl
  have hn := h p hp
  cases hj : jsonParseJs p with
  | none => simp
  | some v => rw [hj] at hn; simp at hn

theorem sseLines_data_line (f : List Char → List Json) (d : List Char)
    (ls : List (List Char)) (htrim : trimL (dataMarker ++ d) = dataMarker ++ d)
    (hd : d ≠ doneLit) :
    sseLines f ((dataMarker ++ d) :: ls) =
      (f d ++ (sseLines f ls).1, (sseLines f ls).2) := by
  have hsw : startsWithL (dataMarker ++ d) dataMarker = true :=
    startsWithL_append_self dataMarker d
  have hdrop : (dataMarker ++ d).drop 6 = d := by
    rw [show (6 : Nat) = dataMarker.length from rfl, List.drop_left]
  simp [sseLines, htrim, hsw, hdrop, hd]

/-- C7: a malformed JSON frame between two valid frames is skipped without
aborting the stream: both parsers still emit exactly the events of the two
surrounding frames. (For the DeepSeek parser, "malformed" means every piece
of its brace-boundary split fails `JSON.parse`; for the OpenAI parser, the
payload itself fails `JSON.parse`.) -/
theorem C7_malformed_frame_skipped :
    ∀ d1 d2 d3 : List Char,
      '\n' ∉ d1 → '\n' ∉ d2 → '\n' ∉ d3 →
      trimL (dataMarker ++ d1) = dataMarker ++ d1 →
      trimL (dataMarker ++ d2) = dataMarker ++ d2 →
      trimL (dataMarker ++ d3) = dataMarker ++ d3 →
      d1 ≠ doneLit → d2 ≠ doneLit → d3 ≠ doneLit →
      (∀ p ∈ splitConcatenatedJSON d2, (jsonParseJs p).isNone = true) →
      (jsonParseJs d2).isNone = true →
      parseDeepSeekJSONSSE
          [(dataMarker ++ d1) ++ '\n' ::
            ((dataMarker ++ d2) ++ '\n' :: ((dataMarker ++ d3) ++ ['\n']))] =
        parseConcatenatedJSON d1 ++ parseConcatenatedJSON d3 ∧
      parseOpenAISSE
          [(dataMarker ++ d1) ++ '\n' ::
            ((dataMarker ++ d2) ++ '\n' :: ((dataMarker ++ d3) ++ ['\n']))] =
        oaDataEvents d1 ++ oaDataEvents d3 := by
  intro d1 d2 d3 hn1 hn2 hn3 ht1 ht2 ht3 he1 he2 he3 hsplit2 hparse2
  have hdm : '\n' ∉ dataMarker := by decide
  have h01 : '\n' ∉ dataMarker ++ d1 := noNl_append _ _ hdm hn1
  have h02 : '\n' ∉ dataMarker ++ d2 := noNl_append _ _ hdm hn2
  have h03 : '\n' ∉ dataMarker ++ d3 := noNl_append _ _ hdm hn3
  have hs3 : splitNl ((dataMarker ++ d3) ++ ['\n']) = ([dataMarker ++ d3], []) :=
    splitNl_noNl_append_nl _ h03
  have hs2 : splitNl ((dataMarker ++ d2) ++ '\n' :: ((dataMarker ++ d3) ++ ['\n'])) =
      ([dataMarker ++ d2, dataMarker ++ d3], []) := by
    rw [splitNl_cons_nl _ _ h02, hs3]
  have hs1 : splitNl ((dataMarker ++ d1) ++ '\n' ::
      ((dataMarker ++ d2) ++ '\n' :: ((dataMarker ++ d3) ++ ['\n']))) =
      ([dataMarker ++ d1, dataMarker ++ d2, dataMarker ++ d3], []) := by
    rw [splitNl_cons_nl _ _ h01, hs2]
  have hs1' : splitNl (dataMarker ++ (d1 ++ '\n' ::
      (dataMarker ++ (d2 ++ '\n' :: (dataMarker ++ (d3 ++ ['\n'])))))) =
      ([dataMarker ++ d1, dataMarker ++ d2, dataMarker ++ d3], []) := by
    rw [← List.append_assoc dataMarker d1, ← List.append_assoc dataMarker d2,
      ← List.append_assoc dataMarker d3]
    exact hs1
  have hpcj2 : parseConcatenatedJSON d2 = [] :=
    parseConcatenatedJSON_eq_nil d2 hsplit2
  have hoa2 : oaDataEvents d2 = [] := by
    unfold oaDataEvents
    rw [Option.isNone_iff_eq_none.mp hparse2]
  constructor
  · have hev : sseLines parseConcatenatedJSON
        [dataMarker ++ d1, dataMarker ++ d2, dataMarker ++ d3] =
        (parseConcatenatedJSON d1 ++ parseConcatenatedJSON d3, false) := by
      rw [sseLines_data_line _ d1 _ ht1 he1, sseLines_data_line _ d2 _ ht2 he2,
        sseLines_data_line _ d3 _ ht3 he3]
      simp [sseLines, hpcj2]
    unfold parseDeepSeekJSONSSE
    rw [List.foldl_cons, List.foldl_nil]
    have hstep : dsStep ⟨[], false, []⟩
        ((dataMarker ++ d1) ++ '\n' ::
          ((dataMarker ++ d2) ++ '\n' :: ((dataMarker ++ d3) ++ ['\n']))) =
        ⟨[], false, parseConcatenatedJSON d1 ++ parseConcatenatedJSON d3⟩ := by
      simp [dsStep, hs1', hev]
    rw [hstep]
    simp [dsFinal, show trimL ([] : List Char) = [] from rfl]
  · have hev : sseLines oaDataEvents
        [dataMarker ++ d1, dataMarker ++ d2, dataMarker ++ d3, []] =
        (oaDataEvents d1 ++ oaDataEvents d3, false) := by
      rw [sseLines_data_line _ d1 _ ht1 he1, sseLines_data_line _ d2 _ ht2 he2,
        sseLines_data_line _ d3 _ ht3 he3, sseLines_nil_line]
      simp [hoa2]
    unfold parseOpenAISSE
    rw [List.foldl_cons, List.foldl_nil]
    have hstep : oaStep (false, [])
        ((dataMarker ++ d1) ++ '\n' ::
          ((dataMarker ++ d2) ++ '\n' :: ((dataMarker ++ d3) ++ ['\n']))) =
        (false, oaDataEvents d1 ++ oaDataEvents d3) := by
      simp [oaStep, hs1', hev]
    rw [hstep]

/-- C7 witness: valid frame "A", malformed frame, valid frame "B". -/
theorem C7_malformed_frame_skipped_witness :
    parseDeepSeekJSONSSE
        [(dataMarker ++ toL "\x7b\"choices\":[\x7b\"delta\":\x7b\"content\":\"A\"\x7d\x7d]\x7d") ++ '\n' ::
          ((dataMarker ++ toL "\x7boops") ++ '\n' ::
            ((dataMarker ++ toL "\x7b\"choices\":[\x7b\"delta\":\x7b\"content\":\"B\"\x7d\x7d]\x7d") ++ ['\n']))] =
      parseConcatenatedJSON (toL "\x7b\"choices\":[\x7b\"delta\":\x7b\"content\":\"A\"\x7d\x7d]\x7d") ++
        parseConcatenatedJSON (toL "\x7b\"choices\":[\x7b\"delta\":\x7b\"content\":\"B\"\x7d\x7d]\x7d") ∧
    parseOpenAISSE
        [(dataMarker ++ toL "\x7b\"choices\":[\x7b\"delta\":\x7b\"content\":\"A\"\x7d\x7d]\x7d") ++ '\n' ::
          ((dataMarker ++ toL "\x7boops") ++ '\n' ::
            ((dataMarker ++ toL "\x7b\"choices\":[\x7b\"delta\":\x7b\"content\":\"B\"\x7d\x7d]\x7d") ++ ['\n']))] =
      oaDataEvents (toL "\x7b\"choices\":[\x7b\"delta\":\x7b\"content\":\"A\"\x7d\x7d]\x7d") ++
        oaDataEvents (toL "\x7b\"choices\":[\x7b\"delta\":\x7b\"content\":\"B\"\x7d\x7d]\x7d") :=
  C7_malformed_frame_skipped
    (toL "\x7b\"choices\":[\x7b\"delta\":\x7b\"content\":\"A\"\x7d\x7d]\x7d")
    (toL "\x7boops")
    (toL "\x7b\"choices\":[\x7b\"delta\":\x7b\"content\":\"B\"\x7d\x7d]\x7d")
    (by decide) (by decide) (by decide) (by decide) (by decide) (by decide)
    (by decide) (by decide) (by decide) (by decide) (by decide)
